import Mathlib

/-
Verification of the augbench ROI metrics scripts.

This file gives a shallow embedding of the fetch / normalize / aggregate
pipeline of the repository's ROI scripts and proves, or refutes, the
frozen claims about them.  Timestamps are modelled as integers (seconds
since the epoch); the scripts' datetime arithmetic becomes integer
arithmetic (one week = 604800 seconds).  Durations reported in hours are
rationals; the scripts' final round(x, 2) becomes round2 below.
Python dictionaries that may be missing or null are modelled as Option.
-/

namespace Augbench

/-- Round a rational to the nearest integer, ties to even.  This models
Python's round applied to the exact rational value (the scripts round
every reported duration; the binary floating point representation is
abstracted away). -/
def rndInt (q : ℚ) : ℤ :=
  let f := ⌊q⌋
  let r := q - (f : ℚ)
  if r < 1/2 then f
  else if 1/2 < r then f + 1
  else if f % 2 = 0 then f else f + 1

/-- round(x, 2) as used by the scripts on every reported hour value. -/
def round2 (q : ℚ) : ℚ := (rndInt (q * 100) : ℚ) / 100

/-- Minimum of a list of timestamps, none when the list is empty.  The
scripts compute this with an accumulator loop; see foldlEarliest_eq. -/
def listMin : List ℤ → Option ℤ
  | [] => none
  | x :: xs =>
    match listMin xs with
    | none => some x
    | some m => some (min x m)

/-- Merge of two optional minima (the accumulator algebra of the loops). -/
def combineMin : Option ℤ → Option ℤ → Option ℤ
  | none, m => m
  | some t, none => some t
  | some t, some m => some (min t m)

/-- str.endswith, on the character lists of the two strings. -/
def strEndsWith (s suf : String) : Bool :=
  if suf.data.length ≤ s.data.length then
    s.data.drop (s.data.length - suf.data.length) == suf.data
  else false

/-- str.lower on one character (ASCII case folding; the identities the
scripts compare are ASCII logins). -/
def charLower (c : Char) : Char :=
  if 'A' ≤ c ∧ c ≤ 'Z' then Char.ofNat (c.toNat + 32) else c

/-- The first list opens the second. -/
def listStartsWith : List Char → List Char → Bool
  | [], _ => true
  | _ :: _, [] => false
  | a :: as, b :: bs => a == b && listStartsWith as bs

/-- The first list occurs contiguously inside the second (Python's
substring test). -/
def listHasSegment (needle : List Char) : List Char → Bool
  | [] => needle.isEmpty
  | b :: bs => listStartsWith needle (b :: bs) || listHasSegment needle bs

/-- needle.lower() in hay.lower(): Python's case-insensitive substring
test on the character lists of the two strings. -/
def strContainsLower (needle hay : String) : Bool :=
  listHasSegment (needle.data.map charLower) (hay.data.map charLower)

/-! ## GitHub variant: github_pr_metrics_detailed_csv.py -/

namespace GH

/-- A GitHub actor.  login and the REST-style type field (used by
is_bot_user) and the GraphQL typename field (used when normalizing
GraphQL nodes) are carried together. -/
structure User where
  login : String
  utype : String
  typename : String
deriving DecidableEq

/-- is_bot_user: a missing / null / empty user dictionary (modelled as
none) is classified as a bot; otherwise the login suffix or the type
field decides. -/
def is_bot_user : Option User → Bool
  | none => true
  | some u => strEndsWith u.login "[bot]" || u.utype == "Bot"

/-- The bot test applied to review and timeline authors during
normalization: GraphQL typename Bot, or a login suffix. -/
def actorIsBot (u : User) : Bool :=
  u.typename == "Bot" || strEndsWith u.login "[bot]"

/-- One node of the reviews connection of the GraphQL response. -/
structure RawReview where
  author : Option User
  createdAt : ℤ
deriving DecidableEq

/-- One node of the timelineItems connection (issue comments and review
submissions). -/
structure RawTimelineItem where
  typename : String
  author : Option User
  createdAt : ℤ
deriving DecidableEq

/-- One node of the commits connection.  The committer date string may be
empty in the payload, hence Option. -/
structure RawCommit where
  authorName : String
  committerDate : Option ℤ
deriving DecidableEq

/-- One pull request node of the GraphQL response (fields the pipeline
reads; presentation-only fields such as the title are omitted). -/
structure RawPR where
  number : ℕ
  createdAt : ℤ
  mergedAt : Option ℤ
  closedAt : Option ℤ
  author : Option User
  baseRefName : String
  state : String
  additions : ℕ
  deletions : ℕ
  commentsTotalCount : ℕ
  reviews : List RawReview
  commits : List RawCommit
  timelineItems : List RawTimelineItem
deriving DecidableEq

/-- An entry of the normalized reviews list (user login and created_at). -/
structure Review where
  userLogin : String
  createdAt : ℤ
deriving DecidableEq

/-- An entry of the normalized timeline_items list. -/
structure TimelineEntry where
  ttype : String
  author : String
  createdAt : ℤ
deriving DecidableEq

/-- An entry of the normalized commits list. -/
structure Commit where
  authorName : String
  committerDate : Option ℤ
deriving DecidableEq

/-- The canonical PR record produced by _process_pr_graphql_data. -/
structure PRData where
  number : ℕ
  createdAt : ℤ
  mergedAt : Option ℤ
  closedAt : Option ℤ
  author : String
  is_bot_author : Bool
  state : String
  comments_count : ℕ
  review_comments_count : ℕ
  reviews : List Review
  commits : List Commit
  commenters : Finset String
  reviewers : Finset String
  additions : ℕ
  deletions : ℕ
  timeline_items : List TimelineEntry
deriving DecidableEq

/-- The PR author login; a missing author becomes the string unknown. -/
def ghAuthor : Option User → String
  | some a => a.login
  | none => "unknown"

/-- is_bot_author: the author typename equals Bot; a missing author is
classified as a bot. -/
def ghIsBotAuthor : Option User → Bool
  | some a => a.typename == "Bot"
  | none => true

/-- reviews_list: reviews with a present, non-bot author, in order. -/
def processedReviews (rs : List RawReview) : List Review :=
  rs.filterMap fun r =>
    match r.author with
    | none => none
    | some a => if actorIsBot a then none else some ⟨a.login, r.createdAt⟩

/-- reviewers: the set of non-bot review author logins. -/
def reviewersOf (rs : List RawReview) : Finset String :=
  (rs.filterMap fun r =>
    match r.author with
    | none => none
    | some a => if actorIsBot a then none else some a.login).toFinset

/-- commenters: the set of non-bot timeline item author logins. -/
def commentersOf (ts : List RawTimelineItem) : Finset String :=
  (ts.filterMap fun t =>
    match t.author with
    | none => none
    | some a => if actorIsBot a then none else some a.login).toFinset

/-- review_comment_count: timeline items with an author whose typename is
a review submission (issue comments are already in comments totalCount). -/
def reviewCommentCount (ts : List RawTimelineItem) : ℕ :=
  ts.countP fun t =>
    t.author.isSome &&
      (t.typename == "PULL_REQUEST_REVIEW" || t.typename == "PullRequestReview")

/-- timeline_items_list: items with an author whose typename is a comment
or review submission, keeping type, author login and created_at. -/
def timelineEntriesOf (ts : List RawTimelineItem) : List TimelineEntry :=
  ts.filterMap fun t =>
    match t.author with
    | none => none
    | some a =>
      if t.typename == "ISSUE_COMMENT" || t.typename == "PULL_REQUEST_REVIEW" ||
          t.typename == "IssueComment" || t.typename == "PullRequestReview" then
        some ⟨t.typename, a.login, t.createdAt⟩
      else none

/-- commits_list: author name and committer date of each commit node. -/
def processedCommits (cs : List RawCommit) : List Commit :=
  cs.map fun c => ⟨c.authorName, c.committerDate⟩

/-- _process_pr_graphql_data: normalize one GraphQL pull request node
into a PRData record. -/
def process_pr_graphql_data (p : RawPR) : PRData :=
  { number := p.number
    createdAt := p.createdAt
    mergedAt := p.mergedAt
    closedAt := p.closedAt
    author := ghAuthor p.author
    is_bot_author := ghIsBotAuthor p.author
    state := p.state
    comments_count := p.commentsTotalCount
    review_comments_count := reviewCommentCount p.timelineItems
    reviews := processedReviews p.reviews
    commits := processedCommits p.commits
    commenters := commentersOf p.timelineItems
    reviewers := reviewersOf p.reviews
    additions := p.additions
    deletions := p.deletions
    timeline_items := timelineEntriesOf p.timelineItems }

/-- The accumulator loop shared by get_time_to_first_comment and
get_time_from_first_comment_to_followup_commit: earliest created_at of a
review whose user login differs from the PR author. -/
def earliestNonAuthorReview (pr : PRData) : Option ℤ :=
  pr.reviews.foldl
    (fun acc r =>
      if r.userLogin ≠ pr.author then
        match acc with
        | none => some r.createdAt
        | some t => if r.createdAt < t then some r.createdAt else some t
      else acc)
    none

/-- get_time_to_first_comment: hours from PR creation to the earliest
review by a different user, rounded to two decimals; none when no such
review exists.  Only the reviews list is consulted. -/
def get_time_to_first_comment (pr : PRData) : Option ℚ :=
  match earliestNonAuthorReview pr with
  | none => none
  | some t => some (round2 (((t : ℚ) - (pr.createdAt : ℚ)) / 3600))

/-- get_time_from_first_comment_to_followup_commit: hours from the first
non-author review to the earliest later commit whose author name is
non-empty and equals the PR author login; none when either side is
missing. -/
def get_time_from_first_comment_to_followup_commit (pr : PRData) : Option ℚ :=
  match earliestNonAuthorReview pr with
  | none => none
  | some fct =>
    let ef : Option ℤ := pr.commits.foldl
      (fun acc c =>
        match c.committerDate with
        | none => acc
        | some d =>
          if d > fct then
            if c.authorName ≠ "" ∧ c.authorName = pr.author then
              match acc with
              | none => some d
              | some m => if d < m then some d else some m
            else acc
          else acc)
      none
    match ef with
    | none => none
    | some d => some (round2 (((d : ℚ) - (fct : ℚ)) / 3600))

/-! ### The follow-up computation of the CSV flattening
(flatten_pr_for_csv) -/

/-- flatten_pr_for_csv: the first-comment instant of the CSV row is the
head of the timeline items sorted by created_at.  ALL stored timeline
items take part -- the PR author's own comments and bot-authored
comments included (Python's stable sort on the ISO strings orders them
chronologically; on the seconds model this is a stable sort on the
timestamps). -/
def flattenFirstCommentAt (pr : PRData) : Option ℤ :=
  match pr.timeline_items.mergeSort
      (fun a b => decide (a.createdAt ≤ b.createdAt)) with
  | [] => none
  | first :: _ => some first.createdAt

/-- flatten_pr_for_csv: the follow-up commit scan takes the FIRST commit
in list order with a recorded committer date strictly after the base
instant whose non-empty author name contains the PR author's login
case-insensitively; the loop breaks at the first hit. -/
def flattenFollowupAt (pr : PRData) (fct : ℤ) : List Commit → Option ℤ
  | [] => none
  | c :: rest =>
    match c.committerDate with
    | none => flattenFollowupAt pr fct rest
    | some d =>
      if d > fct then
        if c.authorName ≠ "" ∧ strContainsLower pr.author c.authorName then
          some d
        else flattenFollowupAt pr fct rest
      else flattenFollowupAt pr fct rest

/-- flatten_pr_for_csv: the time_from_first_comment_to_followup_commit
CSV field, none when the field stays empty. -/
def flatten_followup_hours (pr : PRData) : Option ℚ :=
  match flattenFirstCommentAt pr with
  | none => none
  | some fct =>
    match flattenFollowupAt pr fct pr.commits with
    | none => none
    | some d => some (round2 (((d : ℚ) - (fct : ℚ)) / 3600))

/-- The commit timestamps the CSV scan accepts, in list order:
committer date recorded and strictly after the base, author name
non-empty and containing the PR author's login case-insensitively. -/
def flattenQualifyingTimes (pr : PRData) (fct : ℤ) : List ℤ :=
  pr.commits.filterMap fun c =>
    match c.committerDate with
    | none => none
    | some d =>
      if d > fct ∧ c.authorName ≠ "" ∧
          strContainsLower pr.author c.authorName then
        some d
      else none

/-! ### Period aggregation (calculate_metrics_for_period_optimized) -/

/-- The summary dictionary built at the end of
calculate_metrics_for_period_optimized.  The source dictionary also
carries the analysis date strings, the weeks count, and the export-only
pr_details list, none of which the claims enumerate. -/
structure Metrics where
  total_prs : ℕ
  merged_prs : ℕ
  prs_created_per_week : ℚ
  prs_merged_per_week : ℚ
  average_comments_per_pr : ℚ
  average_time_to_merge_hours : ℚ
  average_time_to_merge_days : ℚ
  average_time_to_first_comment_hours : ℚ
  average_time_from_first_comment_to_followup_commit_hours : ℚ
  unique_contributors_count : ℕ
  failed_prs : ℕ
  successfully_processed_prs : ℕ
deriving DecidableEq

/-- The two shapes the function returns: with no fetched PRs only the
failure count plus a zero successfully-processed count are reported;
otherwise the full summary. -/
inductive PeriodOutput
  | noPrs (failed_prs : ℕ) (successfully_processed_prs : ℕ)
  | res (m : Metrics)
deriving DecidableEq

/-- The full summary carried by a PeriodOutput, if any. -/
def resOf : PeriodOutput → Option Metrics
  | .noPrs _ _ => none
  | .res m => some m

/-- Hours from creation to merge, for merged PRs. -/
def mergeHours (pr : PRData) : Option ℚ :=
  pr.mergedAt.map fun m => ((m : ℚ) - (pr.createdAt : ℚ)) / 3600

/-- The identities one record contributes: the author unless flagged as a
bot, plus the (already bot-filtered) reviewer and commenter sets. -/
def contribs (pr : PRData) : Finset String :=
  (if pr.is_bot_author then ∅ else {pr.author}) ∪ pr.reviewers ∪ pr.commenters

/-- unique_contributors accumulated over the record list. -/
def unique_contributors (prs : List PRData) : Finset String :=
  prs.foldl (fun acc pr => acc ∪ contribs pr) ∅

/-- calculate_metrics_for_period_optimized, given the already fetched
records and the failure count from the fetch.  Division by a zero weeks
count would raise in Python; here it yields 0. -/
def calculate_metrics_for_period (weeks_back : ℕ) (prs : List PRData)
    (failed : ℕ) : PeriodOutput :=
  if prs.isEmpty then .noPrs failed 0
  else
    let total : ℕ := prs.length
    let merged : ℕ := prs.countP fun pr => pr.mergedAt.isSome
    let total_comments : ℕ :=
      (prs.map fun pr => pr.comments_count + pr.review_comments_count).sum
    let mergeVals : List ℚ := prs.filterMap mergeHours
    let ttfcVals : List ℚ := prs.filterMap get_time_to_first_comment
    let fuVals : List ℚ :=
      prs.filterMap get_time_from_first_comment_to_followup_commit
    let avg_ttm : ℚ :=
      if mergeVals.length > 0 then mergeVals.sum / (mergeVals.length : ℚ) else 0
    let avg_ttfc : ℚ :=
      if ttfcVals.isEmpty then 0 else ttfcVals.sum / (ttfcVals.length : ℚ)
    let avg_fu : ℚ :=
      if fuVals.isEmpty then 0 else fuVals.sum / (fuVals.length : ℚ)
    .res
      { total_prs := total
        merged_prs := merged
        prs_created_per_week := round2 ((total : ℚ) / (weeks_back : ℚ))
        prs_merged_per_week := round2 ((merged : ℚ) / (weeks_back : ℚ))
        average_comments_per_pr :=
          round2 (if total > 0 then (total_comments : ℚ) / (total : ℚ) else 0)
        average_time_to_merge_hours := round2 avg_ttm
        average_time_to_merge_days := round2 (avg_ttm / 24)
        average_time_to_first_comment_hours := round2 avg_ttfc
        average_time_from_first_comment_to_followup_commit_hours :=
          round2 avg_fu
        unique_contributors_count := (unique_contributors prs).card
        failed_prs := failed
        successfully_processed_prs := total }

/-! ### The batched fetch loop (get_pull_requests_optimized) -/

/-- One element of a fetched page's nodes array.  null models a null
node (skipped silently); badParse a node whose createdAt string fails to
parse (the exception is counted as a failure wherever the node sits);
raises a node that parses and passes the filters but whose normalization
raises (createdAt and base branch are known, processing fails); ok a
well-formed node. -/
inductive Node
  | null
  | badParse
  | raises (createdAt : ℤ) (baseRef : String)
  | ok (pr : RawPR)
deriving DecidableEq

/-- The per-page loop body: walks the nodes in order, skipping items
created after the window end, halting on the first item created before
the window start, applying the branch filter, catching per-item
normalization failures.  Returns (records, failure count, halted). -/
def processPage (s e : ℤ) (br : String) : List Node → List PRData × ℕ × Bool
  | [] => ([], 0, false)
  | .null :: rest => processPage s e br rest
  | .badParse :: rest =>
    let (ps, f, h) := processPage s e br rest
    (ps, f + 1, h)
  | .raises c _b :: rest =>
    if c > e then processPage s e br rest
    else if c < s then ([], 0, true)
    else if br ≠ "" ∧ _b ≠ br then processPage s e br rest
    else
      let (ps, f, h) := processPage s e br rest
      (ps, f + 1, h)
  | .ok pr :: rest =>
    if pr.createdAt > e then processPage s e br rest
    else if pr.createdAt < s then ([], 0, true)
    else if br ≠ "" ∧ pr.baseRefName ≠ br then processPage s e br rest
    else
      let (ps, f, h) := processPage s e br rest
      (process_pr_graphql_data pr :: ps, f, h)

/-- get_pull_requests_optimized over a server modelled as the list of its
pages (hasNextPage is true exactly while later pages remain).  Returns
(records, failure count, number of page fetches issued). -/
def get_pull_requests_optimized (s e : ℤ) (br : String) :
    List (List Node) → List PRData × ℕ × ℕ
  | [] => ([], 0, 1)
  | pg :: rest =>
    let (ps, f, h) := processPage s e br pg
    if h ∨ rest.isEmpty then (ps, f, 1)
    else
      let (ps2, f2, c) := get_pull_requests_optimized s e br rest
      (ps ++ ps2, f + f2, c + 1)

/-! ### The retry behavior of graphql_query -/

/-- The classified outcomes of one HTTP attempt of graphql_query: a 200
payload without a GraphQL errors key, a 403 rate-limit response, or any
other failure (a non-200 status, a request exception, or a 200 payload
carrying a GraphQL errors key -- all of which return None at once). -/
inductive GHResp
  | ok
  | rateLimited
  | failStatus
deriving DecidableEq

/-- graphql_query driven by the sequence of responses the server would
hand to successive attempts.  Returns (result, attempts made).  A 403
sleeps and re-issues the same query with no attempt bound; every other
failure is surfaced immediately. -/
def graphql_query_run : List GHResp → Option Unit × ℕ
  | [] => (none, 0)
  | .ok :: _ => (some (), 1)
  | .rateLimited :: rest =>
    let (r, a) := graphql_query_run rest
    (r, a + 1)
  | .failStatus :: _ => (none, 1)

/-! ### Window derivation -/

/-- timedelta(weeks=1) in seconds. -/
def week : ℤ := 604800

/-- calculate_date_range: the window of the given length ending at the
given instant. -/
def calculate_date_range (weeks_back : ℕ) (end_date : ℤ) : ℤ × ℤ :=
  (end_date - week * weeks_back, end_date)

/-- calculate_before_auto_date_range: window ending one week before the
automation instant. -/
def calculate_before_auto_date_range (autoDate : ℤ) (weeks_back : ℕ) : ℤ × ℤ :=
  calculate_date_range weeks_back (autoDate - week)

/-- calculate_after_auto_date_range: window starting at the automation
instant. -/
def calculate_after_auto_date_range (autoDate : ℤ) (weeks_back : ℕ) : ℤ × ℤ :=
  (autoDate, autoDate + week * weeks_back)

end GH

/-! ## GitLab variant: gitlab_mr_metrics_detailed_csv.py -/

namespace GLab

/-- A GitLab user object (fields the pipeline reads). -/
structure GLUser where
  username : String
deriving DecidableEq

/-- One note of a merge request discussion. -/
structure GLNote where
  system : Bool
  author : Option GLUser
  createdAt : ℤ
deriving DecidableEq

/-- One merge request node of the GraphQL response, with its discussions
flattened to the note list the loop walks. -/
structure GLNode where
  iid : ℕ
  createdAt : ℤ
  mergedAt : Option ℤ
  closedAt : Option ℤ
  author : Option GLUser
  targetBranch : String
  userNotesCount : ℕ
  additions : ℕ
  deletions : ℕ
  notes : List GLNote
deriving DecidableEq

/-- author.get('username', '') over a possibly missing author object. -/
def glUsername : Option GLUser → String
  | some u => u.username
  | none => ""

/-- The author bot test of fetch_mrs_batch_graphql: the login suffix when
the username is non-empty, False when it is missing or empty. -/
def glIsBotAuthor (username : String) : Bool :=
  if username ≠ "" then strEndsWith username "[bot]" else false

/-- The normalized merge request record (fields the claims touch). -/
structure MRData where
  iid : ℕ
  createdAt : ℤ
  mergedAt : Option ℤ
  author : String
  is_bot_author : Bool
  commenters : Finset String
  changes_count : ℕ
deriving DecidableEq

/-- Normalization of one in-window node: non-system note authors with a
username become commenters; the author bot flag fails open on a missing
username. -/
def glProcessNode (n : GLNode) : MRData :=
  { iid := n.iid
    createdAt := n.createdAt
    mergedAt := n.mergedAt
    author := glUsername n.author
    is_bot_author := glIsBotAuthor (glUsername n.author)
    commenters :=
      (n.notes.filterMap fun note =>
        if note.system then none
        else
          match note.author with
          | none => none
          | some a => if a.username ≠ "" then some a.username else none).toFinset
    changes_count := n.additions + n.deletions }

/-- fetch_mrs_batch_graphql over one page of nodes: every node outside
the closed window [s, e] is skipped individually (below-start nodes do
NOT halt anything here), then the branch filter applies. -/
def fetch_mrs_batch (s e : ℤ) (br : String) (nodes : List GLNode) :
    List MRData :=
  nodes.filterMap fun n =>
    if s ≤ n.createdAt ∧ n.createdAt ≤ e then
      if br ≠ "" ∧ n.targetBranch ≠ br then none
      else some (glProcessNode n)
    else none

/-- get_merge_requests over a server modelled as the list of its pages:
the loop keeps requesting the next page until the server reports no
further page; it never stops early on out-of-window items.  Returns
(records, number of page fetches issued). -/
def get_merge_requests (s e : ℤ) (br : String) :
    List (List GLNode) → List MRData × ℕ
  | [] => ([], 1)
  | pg :: rest =>
    let mrs := fetch_mrs_batch s e br pg
    if rest.isEmpty then (mrs, 1)
    else
      let res := get_merge_requests s e br rest
      (mrs ++ res.1, res.2 + 1)

end GLab

/-! ## Bitbucket variant: bitbucket_pr_metrics.py -/

namespace BB

/-- The classified outcomes of one HTTP attempt of _get: a status code,
or a request exception. -/
inductive BBResp
  | status (code : ℕ)
  | exn
deriving DecidableEq

/-- The attempt loop of _get, driven by the sequence of responses the
server would hand to successive attempts, with the remaining attempt
budget (the source fixes max_retries = 3).  Returns (success, attempts
made).  A 200 returns the payload; 500/502/503/504 and request
exceptions back off and re-enter the loop; every other status (429
included -- the rate-limit helper only runs inside the server-error
branch, where the status is never 429) returns None at once. -/
def bbAttempt : List BBResp → ℕ → Bool × ℕ
  | _, 0 => (false, 0)
  | [], n + 1 =>
    let (sc, a) := bbAttempt [] n
    (sc, a + 1)
  | .exn :: rest, n + 1 =>
    let (sc, a) := bbAttempt rest n
    (sc, a + 1)
  | .status c :: rest, n + 1 =>
    if c = 200 then (true, 1)
    else if c = 500 ∨ c = 502 ∨ c = 503 ∨ c = 504 then
      let (sc, a) := bbAttempt rest n
      (sc, a + 1)
    else (false, 1)

/-- _get with its hard-coded bound of three attempts. -/
def bb_get (rs : List BBResp) : Bool × ℕ := bbAttempt rs 3

/-- calculate_before_auto_date_range of the Bitbucket script (same
arithmetic as the GitHub one). -/
def calculate_before_auto_date_range (autoDate : ℤ) (weeks_back : ℕ) : ℤ × ℤ :=
  (autoDate - GH.week - GH.week * weeks_back, autoDate - GH.week)

/-- calculate_after_auto_date_range of the Bitbucket script. -/
def calculate_after_auto_date_range (autoDate : ℤ) (weeks_back : ℕ) : ℤ × ℤ :=
  (autoDate, autoDate + GH.week * weeks_back)

end BB

/-! ## Specification-side descriptions used to state the claims -/

namespace GH

/-- The review timestamps that qualify for the first-comment metric of a
normalized record: reviews whose user login differs from the record's
author. -/
def qualReviewTimes (pr : PRData) : List ℤ :=
  pr.reviews.filterMap fun r =>
    if r.userLogin ≠ pr.author then some r.createdAt else none

/-- The same qualifying set read off the raw node: reviews with a
present, non-bot author other than the PR author. -/
def rawQualReviewTimes (p : RawPR) : List ℤ :=
  p.reviews.filterMap fun r =>
    match r.author with
    | none => none
    | some a =>
      if actorIsBot a then none
      else if a.login ≠ ghAuthor p.author then some r.createdAt else none

/-- Timeline items (plain comments and review submissions) with a
present, non-bot author other than the PR author. -/
def rawQualCommentTimes (p : RawPR) : List ℤ :=
  p.timelineItems.filterMap fun t =>
    match t.author with
    | none => none
    | some a =>
      if actorIsBot a then none
      else if a.login ≠ ghAuthor p.author then some t.createdAt else none

/-- Modelled from the spec (4.6): the minimum timestamp among ALL
comments and review submissions whose author is non-automated and is not
the PR's own author, minus the created time.  The code does not compute
this; it is stated only to compare the claim's wording with the code. -/
def spec_time_to_first_comment (p : RawPR) : Option ℚ :=
  (listMin (rawQualReviewTimes p ++ rawQualCommentTimes p)).map
    fun t => round2 (((t : ℚ) - (p.createdAt : ℚ)) / 3600)

/-- The commit timestamps that qualify as follow-up commits after the
first-comment instant: a recorded committer date strictly after it, and a
recorded (non-empty) author name equal to the record's author. -/
def qualCommitTimes (pr : PRData) (fct : ℤ) : List ℤ :=
  pr.commits.filterMap fun c =>
    match c.committerDate with
    | none => none
    | some d =>
      if d > fct ∧ c.authorName ≠ "" ∧ c.authorName = pr.author then some d
      else none

/-- The creation instant the fetch loop date-filters on, when the node
has one. -/
def nodeDate : Node → Option ℤ
  | .raises c _ => some c
  | .ok pr => some pr.createdAt
  | _ => none

/-- Whether the fetch loop halts on this node: its creation instant is
not above the window end (else it is merely skipped) and is below the
window start. -/
def nodeHaltsB (s e : ℤ) (n : Node) : Bool :=
  match nodeDate n with
  | none => false
  | some c => if ¬c > e ∧ c < s then true else false

/-- The record a node contributes when the scan reaches it: a well-formed
node inside the window that passes the branch filter. -/
def nodeSucc (s e : ℤ) (br : String) : Node → Option PRData
  | .ok pr =>
    if s ≤ pr.createdAt ∧ pr.createdAt ≤ e ∧ (br = "" ∨ pr.baseRefName = br) then
      some (process_pr_graphql_data pr)
    else none
  | _ => none

/-- Whether a node counts as a failed record when the scan reaches it: an
unparsable creation date, or a normalization error on a node inside the
window that passes the branch filter. -/
def nodeFails (s e : ℤ) (br : String) : Node → Bool
  | .badParse => true
  | .raises c b =>
    if s ≤ c ∧ c ≤ e ∧ (br = "" ∨ b = br) then true else false
  | _ => false

end GH

/-! ## Concrete data used by witnesses and counterexamples -/

namespace GH

/-- A human reviewer. -/
def aliceUser : User := ⟨"alice", "User", "User"⟩

/-- A human PR author. -/
def bobUser : User := ⟨"bob", "User", "User"⟩

/-- A raw PR by bob whose only feedback is a plain issue comment by
alice two hours in: a qualifying comment per the spec, not a review. -/
def issueCommentOnlyPR : RawPR :=
  { number := 1, createdAt := 0, mergedAt := none, closedAt := none
    author := some bobUser, baseRefName := "main", state := "OPEN"
    additions := 0, deletions := 0, commentsTotalCount := 1
    reviews := [], commits := []
    timelineItems := [⟨"ISSUE_COMMENT", some aliceUser, 7200⟩] }

/-- A normalized record whose first (and only) non-author review sits two
hours after creation. -/
def prReviewAt2h : PRData :=
  { number := 1, createdAt := 0, mergedAt := none, closedAt := none
    author := "bob", is_bot_author := false, state := "OPEN"
    comments_count := 0, review_comments_count := 0
    reviews := [⟨"alice", 7200⟩], commits := []
    commenters := ∅, reviewers := {"alice"}
    additions := 0, deletions := 0, timeline_items := [] }

/-- Like prReviewAt2h with the review four hours in. -/
def prReviewAt4h : PRData :=
  { prReviewAt2h with number := 2, reviews := [⟨"alice", 14400⟩] }

/-- A record with no reviews at all: every timeline metric is undefined. -/
def prNoReviews : PRData :=
  { prReviewAt2h with number := 3, reviews := [], reviewers := ∅ }

/-- A record whose only non-author review happened at the creation
instant: the metric is defined and equal to zero. -/
def prReviewAt0h : PRData :=
  { prReviewAt2h with number := 4, reviews := [⟨"alice", 0⟩] }

/-- A well-formed raw node inside the window [0, 10000] used to build
example pages. -/
def rawIn (k : ℕ) : RawPR :=
  { number := k, createdAt := 100 + k, mergedAt := none, closedAt := none
    author := some bobUser, baseRefName := "main", state := "OPEN"
    additions := 0, deletions := 0, commentsTotalCount := 0
    reviews := [], commits := [], timelineItems := [] }

/-- A raw node created before the window start used for halting
examples. -/
def rawLow : RawPR :=
  { rawIn 9 with createdAt := 1 }

/-- A raw PR whose author object is missing entirely. -/
def noAuthorRaw : RawPR :=
  { issueCommentOnlyPR with author := none }

/-- A record by bob, reviewed by alice one hour in, whose only later
commit carries the DIFFERENT author identity bobby: no commit author
equals the PR author, but bob is a substring of bobby. -/
def prSubstringCommit : PRData :=
  { prReviewAt2h with
    number := 5
    reviews := [⟨"alice", 3600⟩]
    timeline_items := [⟨"PULL_REQUEST_REVIEW", "alice", 3600⟩]
    commits := [⟨"bobby", some 7200⟩] }

/-- A record by bob, reviewed by alice one hour in, with two later
commits by bob where the LATER one comes first in list order. -/
def prUnorderedCommits : PRData :=
  { prReviewAt2h with
    number := 6
    reviews := [⟨"alice", 3600⟩]
    timeline_items := [⟨"PULL_REQUEST_REVIEW", "alice", 3600⟩]
    commits := [⟨"bob", some 10800⟩, ⟨"bob", some 7200⟩] }

/-- A normalized record flagged as bot-authored. -/
def botPR : PRData :=
  { prReviewAt2h with is_bot_author := true }

/-- A fetched page of ten records of which two raise during
normalization: the partial-failure scenario of the spec. -/
def tenNodePage : List Node :=
  [Node.ok (rawIn 1), Node.ok (rawIn 2), Node.raises 150 "main",
   Node.ok (rawIn 3), Node.ok (rawIn 4), Node.ok (rawIn 5),
   Node.raises 160 "main", Node.ok (rawIn 6), Node.ok (rawIn 7),
   Node.ok (rawIn 8)]

end GH

namespace GLab

/-- A GitLab merge request node with the given creation instant. -/
def glNode (t : ℤ) : GLNode :=
  { iid := 0, createdAt := t, mergedAt := none, closedAt := none
    author := some ⟨"alice"⟩, targetBranch := "main", userNotesCount := 0
    additions := 0, deletions := 0, notes := [] }

/-- A GitLab merge request node whose author object is missing. -/
def glNoAuthorNode : GLNode :=
  { glNode 5 with author := none }

end GLab

/-! ## Helper lemmas -/

/-- Rounding an integral number of hours to two decimals changes
nothing. -/
theorem round2_intCast (z : ℤ) : round2 (z : ℚ) = (z : ℚ) := by
  have h1 : ((z : ℚ) * 100) = ((z * 100 : ℤ) : ℚ) := by push_cast; ring
  simp only [round2, rndInt, h1, Int.floor_intCast, sub_self]
  norm_num

theorem round2_zero : round2 0 = 0 := by
  have h := round2_intCast 0
  norm_num at h
  simpa using h

theorem combineMin_assoc (a b c : Option ℤ) :
    combineMin (combineMin a b) c = combineMin a (combineMin b c) := by
  cases a <;> cases b <;> cases c <;> simp [combineMin, min_assoc]

theorem combineMin_none (m : Option ℤ) : combineMin none m = m := rfl

theorem listMin_cons (x : ℤ) (xs : List ℤ) :
    listMin (x :: xs) = combineMin (some x) (listMin xs) := by
  cases h : listMin xs <;> simp [listMin, combineMin, h]

theorem listMin_eq_none (l : List ℤ) : listMin l = none ↔ l = [] := by
  cases l with
  | nil => simp [listMin]
  | cons x xs =>
    simp only [listMin]
    cases h : listMin xs <;> simp

/-- The accumulator update of the earliest-timestamp loops is combineMin
with a singleton. -/
theorem minUpdate_eq (a : Option ℤ) (v : ℤ) :
    (match a with
      | none => some v
      | some t => if v < t then some v else some t) = combineMin a (some v) := by
  cases a with
  | none => rfl
  | some t =>
    simp only [combineMin, Option.some.injEq]
    rcases lt_or_ge v t with h | h
    · simp [h, min_eq_right h.le]
    · simp [not_lt.mpr h, min_eq_left h]

/-- The earliest-timestamp loop of the scripts computes the minimum of
the selected values. -/
theorem foldl_min_eq {α : Type} (sel : α → Option ℤ) (l : List α)
    (acc : Option ℤ) :
    l.foldl
      (fun a x =>
        match sel x with
        | none => a
        | some v =>
          match a with
          | none => some v
          | some t => if v < t then some v else some t)
      acc
    = combineMin acc (listMin (l.filterMap sel)) := by
  induction l generalizing acc with
  | nil => cases acc <;> simp [listMin, combineMin]
  | cons x xs ih =>
    simp only [List.foldl_cons, List.filterMap_cons]
    cases hx : sel x with
    | none => simpa using ih acc
    | some v =>
      simp only []
      rw [minUpdate_eq, ih, listMin_cons, combineMin_assoc]

namespace GH

/-- The loop of get_time_to_first_comment computes the minimum qualifying
review timestamp. -/
theorem earliestNonAuthorReview_eq (pr : PRData) :
    earliestNonAuthorReview pr = listMin (qualReviewTimes pr) := by
  unfold earliestNonAuthorReview qualReviewTimes
  have hfun :
      (fun (acc : Option ℤ) (r : Review) =>
        if r.userLogin ≠ pr.author then
          match acc with
          | none => some r.createdAt
          | some t => if r.createdAt < t then some r.createdAt else some t
        else acc)
      = fun (acc : Option ℤ) (r : Review) =>
          match (if r.userLogin ≠ pr.author then some r.createdAt else none) with
          | none => acc
          | some v =>
            match acc with
            | none => some v
            | some t => if v < t then some v else some t := by
    funext acc r
    by_cases h : r.userLogin ≠ pr.author <;> simp [h]
  rw [hfun, foldl_min_eq, combineMin_none]

/-- The inner loop of the follow-up metric computes the minimum
qualifying commit timestamp. -/
theorem followupFold_eq (pr : PRData) (fct : ℤ) :
    pr.commits.foldl
      (fun acc c =>
        match c.committerDate with
        | none => acc
        | some d =>
          if d > fct then
            if c.authorName ≠ "" ∧ c.authorName = pr.author then
              match acc with
              | none => some d
              | some m => if d < m then some d else some m
            else acc
          else acc)
      none
    = listMin (qualCommitTimes pr fct) := by
  unfold qualCommitTimes
  have hfun :
      (fun (acc : Option ℤ) (c : Commit) =>
        match c.committerDate with
        | none => acc
        | some d =>
          if d > fct then
            if c.authorName ≠ "" ∧ c.authorName = pr.author then
              match acc with
              | none => some d
              | some m => if d < m then some d else some m
            else acc
          else acc)
      = fun (acc : Option ℤ) (c : Commit) =>
          match (match c.committerDate with
            | none => none
            | some d =>
              if d > fct ∧ c.authorName ≠ "" ∧ c.authorName = pr.author then
                some d
              else none) with
          | none => acc
          | some v =>
            match acc with
            | none => some v
            | some t => if v < t then some v else some t := by
    funext acc c
    cases c.committerDate with
    | none => simp
    | some d =>
      simp only []
      by_cases h1 : d > fct
      · by_cases h2 : c.authorName ≠ "" ∧ c.authorName = pr.author
        · rw [if_pos h1, if_pos h2, if_pos ⟨h1, h2⟩]
        · rw [if_pos h1, if_neg h2, if_neg fun hc => h2 hc.2]
      · rw [if_neg h1, if_neg fun hc => h1 hc.1]
  rw [hfun, foldl_min_eq, combineMin_none]

/-- The qualifying review timestamps of a normalized record, read off the
raw node: normalization keeps exactly the present non-bot review authors,
and the metric then drops the PR author's own reviews. -/
theorem qualReviewTimes_process (raw : RawPR) :
    qualReviewTimes (process_pr_graphql_data raw) = rawQualReviewTimes raw := by
  unfold qualReviewTimes rawQualReviewTimes process_pr_graphql_data
    processedReviews
  simp only [List.filterMap_filterMap]
  congr 1
  funext r
  cases r.author with
  | none => rfl
  | some a =>
    simp only []
    by_cases hb : actorIsBot a
    · simp [hb]
    · by_cases hl : a.login ≠ ghAuthor raw.author <;> simp [hb, hl]

/-- C1 (amended): the time-to-first-comment of a normalized record is the
minimum timestamp among its review submissions (with a present, non-bot
author other than the PR author) minus the created time, in rounded
hours; it is none exactly when no such review submission exists.  Plain
issue comments never enter this minimum. -/
theorem gh_ttfc_reviews_only (raw : RawPR) :
    get_time_to_first_comment (process_pr_graphql_data raw) =
      (listMin (rawQualReviewTimes raw)).map
        (fun t => round2 (((t : ℚ) - (raw.createdAt : ℚ)) / 3600)) := by
  unfold get_time_to_first_comment
  rw [earliestNonAuthorReview_eq, qualReviewTimes_process]
  cases listMin (rawQualReviewTimes raw) <;> rfl

/-- C1 (counterexample): a PR whose only feedback entry is a plain issue
comment by a non-bot non-author has an undefined time-to-first-comment in
the code, although the claim's minimum over all comments and review
submissions is defined (two hours). -/
theorem gh_ttfc_issue_comment_counterexample :
    get_time_to_first_comment (process_pr_graphql_data issueCommentOnlyPR) =
        none ∧
      spec_time_to_first_comment issueCommentOnlyPR = some 2 := by
  constructor
  · rfl
  · have hA : actorIsBot aliceUser = false := by decide
    have hab : ("alice" : String) ≠ ghAuthor issueCommentOnlyPR.author := by
      decide
    simp [spec_time_to_first_comment, rawQualReviewTimes, rawQualCommentTimes,
      issueCommentOnlyPR, listMin, hA, hab, aliceUser]
    have h2 : ((7200 : ℤ) : ℚ) - ((0 : ℤ) : ℚ) = ((2 : ℤ) : ℚ) * 3600 := by
      norm_num
    rw [show ((2 : ℚ)) = ((2 : ℤ) : ℚ) by norm_num]
    rw [← round2_intCast 2]
    congr 1
    push_cast
    ring

/-- listMin returns a member that bounds every member from below. -/
theorem listMin_mem_le : ∀ (L : List ℤ) (m : ℤ), listMin L = some m →
    m ∈ L ∧ ∀ y ∈ L, m ≤ y := by
  intro L
  induction L with
  | nil => intro m h; simp [listMin] at h
  | cons x xs ih =>
    intro m h
    rw [listMin_cons] at h
    cases hxs : listMin xs with
    | none =>
      rw [hxs] at h
      have hnil := (listMin_eq_none xs).mp hxs
      subst hnil
      simp [combineMin] at h
      subst h
      refine ⟨by simp, ?_⟩
      intro y hy
      simp at hy
      omega
    | some mx =>
      rw [hxs] at h
      simp [combineMin] at h
      obtain ⟨hmem, hle⟩ := ih mx hxs
      subst h
      constructor
      · rcases le_total x mx with hc | hc
        · rw [min_eq_left hc]; exact List.mem_cons_self x xs
        · rw [min_eq_right hc]; exact List.mem_cons_of_mem x hmem
      · intro y hy
        rcases List.mem_cons.mp hy with rfl | hy
        · exact min_le_left _ _
        · exact le_trans (min_le_right _ _) (hle y hy)

/-- listMin is invariant under permutation. -/
theorem listMin_perm {L L' : List ℤ} (h : L.Perm L') :
    listMin L = listMin L' := by
  cases hL : listMin L with
  | none =>
    have h1 : L = [] := (listMin_eq_none L).mp hL
    subst h1
    have h2 : L' = [] := List.nil_perm.mp h
    subst h2
    rfl
  | some m =>
    cases hL' : listMin L' with
    | none =>
      have h1 : L' = [] := (listMin_eq_none L').mp hL'
      subst h1
      have h2 : L = [] := List.perm_nil.mp h
      subst h2
      simp [listMin] at hL
    | some m' =>
      obtain ⟨hm, hle⟩ := listMin_mem_le L m hL
      obtain ⟨hm', hle'⟩ := listMin_mem_le L' m' hL'
      have h1 : m ≤ m' := hle m' (h.symm.subset hm')
      have h2 : m' ≤ m := hle' m (h.subset hm)
      rw [le_antisymm h1 h2]

/-- The head of the stable sort of the timeline items carries their
minimum timestamp: the CSV first-comment instant is the earliest of ALL
timeline items. -/
theorem flattenFirstCommentAt_eq (pr : PRData) :
    flattenFirstCommentAt pr =
      listMin (pr.timeline_items.map fun t => t.createdAt) := by
  unfold flattenFirstCommentAt
  have hperm := List.mergeSort_perm pr.timeline_items
      (fun a b => decide (a.createdAt ≤ b.createdAt))
  cases hs : pr.timeline_items.mergeSort
      (fun a b => decide (a.createdAt ≤ b.createdAt)) with
  | nil =>
    rw [hs] at hperm
    have hnil : pr.timeline_items = [] := List.nil_perm.mp hperm
    rw [hnil]
    rfl
  | cons x rest =>
    rw [hs] at hperm
    have htrans : ∀ a b c : TimelineEntry,
        decide (a.createdAt ≤ b.createdAt) = true →
          decide (b.createdAt ≤ c.createdAt) = true →
          decide (a.createdAt ≤ c.createdAt) = true := by
      intro a b c h1 h2
      simp only [decide_eq_true_iff] at h1 h2 ⊢
      omega
    have htot : ∀ a b : TimelineEntry,
        (decide (a.createdAt ≤ b.createdAt) ||
          decide (b.createdAt ≤ a.createdAt)) = true := by
      intro a b
      simp only [Bool.or_eq_true, decide_eq_true_iff]
      omega
    have hsort := List.sorted_mergeSort htrans htot pr.timeline_items
    rw [hs] at hsort
    have hhead : ∀ y ∈ rest, x.createdAt ≤ y.createdAt := by
      intro y hy
      have := (List.pairwise_cons.mp hsort).1 y hy
      simpa [decide_eq_true_iff] using this
    have hpm : ((x :: rest).map fun t => t.createdAt).Perm
        (pr.timeline_items.map fun t => t.createdAt) :=
      hperm.map _
    rw [← listMin_perm hpm, List.map_cons, listMin_cons]
    cases hr : listMin (rest.map fun t => t.createdAt) with
    | none => rfl
    | some m =>
      obtain ⟨hm, -⟩ := listMin_mem_le _ _ hr
      obtain ⟨y, hy, hky⟩ := List.mem_map.mp hm
      have hxm : x.createdAt ≤ m := hky ▸ hhead y hy
      simp [combineMin, min_eq_left hxm]

/-- The break-on-first-hit scan of the CSV flattening returns the head
of the qualifying commits in list order. -/
theorem flattenFollowupAt_eq (pr : PRData) (fct : ℤ) :
    ∀ cs : List Commit,
      flattenFollowupAt pr fct cs =
        (cs.filterMap fun c =>
          match c.committerDate with
          | none => none
          | some d =>
            if d > fct ∧ c.authorName ≠ "" ∧
                strContainsLower pr.author c.authorName then
              some d
            else none).head? := by
  intro cs
  induction cs with
  | nil => rfl
  | cons c rest ih =>
    cases hd : c.committerDate with
    | none => simp [flattenFollowupAt, hd, ih]
    | some d =>
      by_cases h1 : d > fct
      · by_cases h2 : c.authorName ≠ "" ∧
            strContainsLower pr.author c.authorName = true
        · simp [flattenFollowupAt, hd, h1, h2]
        · simp [flattenFollowupAt, hd, h1, h2, ih]
      · simp [flattenFollowupAt, hd, h1, ih]

/-- C8 (amended): the repository computes the follow-up latency at two
cited sites that disagree.  At the aggregate-metric site
(get_time_from_first_comment_to_followup_commit) it equals the minimum
commit timestamp over commits with a recorded committer date strictly
after the first-comment timestamp and a recorded author name EQUAL to
the PR author, minus that timestamp, in rounded hours; none when no such
commit exists or when time-to-first-comment is itself undefined.  At the
CSV-flattening site (flatten_pr_for_csv) the base is the earliest of ALL
timeline items (the PR author's own and bot comments included), the
commit is the FIRST in list order (not the minimum timestamp) whose
recorded committer date is strictly later and whose non-empty author
name CONTAINS the PR author's login case-insensitively (not an identity
equality), and the field is empty exactly when the base or such a commit
is missing. -/
theorem gh_followup_metric_sites :
    (∀ pr : PRData,
      (get_time_from_first_comment_to_followup_commit pr =
        (listMin (qualReviewTimes pr)).bind fun fct =>
          (listMin (qualCommitTimes pr fct)).map
            fun d => round2 (((d : ℚ) - (fct : ℚ)) / 3600)) ∧
      (get_time_to_first_comment pr = none ↔ qualReviewTimes pr = [])) ∧
    (∀ pr : PRData,
      flattenFirstCommentAt pr =
        listMin (pr.timeline_items.map fun t => t.createdAt)) ∧
    (∀ (pr : PRData) (fct : ℤ),
      flattenFollowupAt pr fct pr.commits =
        (flattenQualifyingTimes pr fct).head?) ∧
    (∀ pr : PRData,
      flatten_followup_hours pr =
        (listMin (pr.timeline_items.map fun t => t.createdAt)).bind
          fun fct =>
            ((flattenQualifyingTimes pr fct).head?).map
              fun d => round2 (((d : ℚ) - (fct : ℚ)) / 3600)) := by
  refine ⟨?_, flattenFirstCommentAt_eq, ?_, ?_⟩
  · intro pr
    constructor
    · unfold get_time_from_first_comment_to_followup_commit
      rw [earliestNonAuthorReview_eq]
      cases h : listMin (qualReviewTimes pr) with
      | none => rfl
      | some fct =>
        simp only [Option.some_bind]
        rw [followupFold_eq]
        cases listMin (qualCommitTimes pr fct) <;> rfl
    · unfold get_time_to_first_comment
      rw [earliestNonAuthorReview_eq]
      cases h : listMin (qualReviewTimes pr) with
      | none => simp [(listMin_eq_none _).mp h]
      | some fct =>
        have hne : qualReviewTimes pr ≠ [] := by
          intro hq
          rw [hq] at h
          simp [listMin] at h
        simp [hne]
  · intro pr fct
    rw [flattenFollowupAt_eq]
    rfl
  · intro pr
    unfold flatten_followup_hours
    rw [flattenFirstCommentAt_eq]
    cases hb : listMin (pr.timeline_items.map fun t => t.createdAt) with
    | none => rfl
    | some fct =>
      simp only [Option.some_bind]
      rw [show flattenFollowupAt pr fct pr.commits =
          (flattenQualifyingTimes pr fct).head? from by
        rw [flattenFollowupAt_eq]; rfl]
      cases (flattenQualifyingTimes pr fct).head? <;> rfl

/-- C8 (counterexample): a record by bob with a defined
time-to-first-comment (one hour, from alice's review), no commit whose
author identity equals the PR author -- so the claim requires an
undefined value -- yet the cited CSV-flattening site produces the
defined value 1 (the commit author bobby matches by substring); and on a
record with two genuinely qualifying commits the same site reports the
first in list order (2 hours), not the minimum timestamp (which would
give 1 hour, from the commit at 7200). -/
theorem gh_followup_flatten_counterexample :
    get_time_to_first_comment prSubstringCommit = some 1 ∧
      qualCommitTimes prSubstringCommit 3600 = [] ∧
      flatten_followup_hours prSubstringCommit = some 1 ∧
      flatten_followup_hours prUnorderedCommits = some 2 ∧
      listMin (qualCommitTimes prUnorderedCommits 3600) = some 7200 := by
  have hs : ("alice" : String) ≠ "bob" := by decide
  refine ⟨?_, by decide, ?_, ?_, by decide⟩
  · simp [get_time_to_first_comment, earliestNonAuthorReview,
      prSubstringCommit, prReviewAt2h, hs]
    have h1 := round2_intCast 1
    norm_num at h1
    exact h1
  · have hb : flattenFirstCommentAt prSubstringCommit = some 3600 := by
      rw [flattenFirstCommentAt_eq]
      rfl
    have hf : flattenFollowupAt prSubstringCommit 3600
        prSubstringCommit.commits = some 7200 := by decide
    simp [flatten_followup_hours, hb, hf]
    rw [show ((7200 : ℚ) - 3600) / 3600 = ((1 : ℤ) : ℚ) by norm_num,
      round2_intCast]
    norm_num
  · have hb : flattenFirstCommentAt prUnorderedCommits = some 3600 := by
      rw [flattenFirstCommentAt_eq]
      rfl
    have hf : flattenFollowupAt prUnorderedCommits 3600
        prUnorderedCommits.commits = some 10800 := by decide
    simp [flatten_followup_hours, hb, hf]
    rw [show ((10800 : ℚ) - 3600) / 3600 = ((2 : ℤ) : ℚ) by norm_num,
      round2_intCast]
    norm_num

/-- The record with a lone non-author review two hours in has
time-to-first-comment two hours. -/
theorem ttfc_prReviewAt2h : get_time_to_first_comment prReviewAt2h = some 2 := by
  have hs : ("alice" : String) ≠ "bob" := by decide
  simp [get_time_to_first_comment, earliestNonAuthorReview, prReviewAt2h, hs]
  rw [show ((7200 : ℚ)) / 3600 = ((2 : ℤ) : ℚ) by norm_num, round2_intCast]
  norm_num

/-- The record with a lone non-author review four hours in has
time-to-first-comment four hours. -/
theorem ttfc_prReviewAt4h : get_time_to_first_comment prReviewAt4h = some 4 := by
  have hs : ("alice" : String) ≠ "bob" := by decide
  simp [get_time_to_first_comment, earliestNonAuthorReview, prReviewAt4h,
    prReviewAt2h, hs]
  rw [show ((14400 : ℚ)) / 3600 = ((4 : ℤ) : ℚ) by norm_num, round2_intCast]
  norm_num

/-- The record without reviews has an undefined time-to-first-comment. -/
theorem ttfc_prNoReviews : get_time_to_first_comment prNoReviews = none := rfl

/-- The record reviewed at the creation instant has a (defined)
time-to-first-comment of zero hours. -/
theorem ttfc_prReviewAt0h : get_time_to_first_comment prReviewAt0h = some 0 := by
  have hs : ("alice" : String) ≠ "bob" := by decide
  simp [get_time_to_first_comment, earliestNonAuthorReview, prReviewAt0h,
    prReviewAt2h, hs]
  exact round2_zero

/-- mergeHours is defined exactly for merged records. -/
theorem mergeHours_isSome (pr : PRData) :
    (mergeHours pr).isSome = pr.mergedAt.isSome := by
  unfold mergeHours
  cases pr.mergedAt <;> rfl

/-- C4: every per-window average divides by the number of records for
which the metric is defined (records with an undefined value drop out of
numerator and denominator alike), and the three-record instance with
time-to-first-comment values of two and four hours and one undefined
value averages exactly three hours. -/
theorem gh_averages_over_defined_only :
    (∀ (wk fl : ℕ) (prs : List PRData),
      (resOf (calculate_metrics_for_period wk prs fl)).map
          (fun m =>
            (m.average_time_to_first_comment_hours,
              m.average_time_from_first_comment_to_followup_commit_hours,
              m.average_time_to_merge_hours)) =
        (resOf (calculate_metrics_for_period wk prs fl)).map
          (fun _ =>
            (round2
              (if prs.countP
                    (fun pr => (get_time_to_first_comment pr).isSome) = 0
                then 0
                else (prs.filterMap get_time_to_first_comment).sum /
                  (prs.countP
                    (fun pr => (get_time_to_first_comment pr).isSome) : ℚ)),
              round2
                (if prs.countP
                      (fun pr =>
                        (get_time_from_first_comment_to_followup_commit
                            pr).isSome) = 0
                  then 0
                  else
                    (prs.filterMap
                        get_time_from_first_comment_to_followup_commit).sum /
                      (prs.countP
                        (fun pr =>
                          (get_time_from_first_comment_to_followup_commit
                              pr).isSome) : ℚ)),
              round2
                (if prs.countP (fun pr => pr.mergedAt.isSome) = 0 then 0
                  else (prs.filterMap mergeHours).sum /
                    (prs.countP (fun pr => pr.mergedAt.isSome) : ℚ))))) ∧
    (resOf
          (calculate_metrics_for_period 1
            [prReviewAt2h, prReviewAt4h, prNoReviews] 0)).map
        (fun m => m.average_time_to_first_comment_hours) = some 3 := by
  constructor
  · intro wk fl prs
    cases hp : prs.isEmpty with
    | true => simp [calculate_metrics_for_period, hp, resOf]
    | false =>
      simp only [calculate_metrics_for_period, hp, Bool.false_eq_true,
        if_false, resOf, Option.map_some', Option.some.injEq, Prod.mk.injEq]
      refine ⟨?_, ?_, ?_⟩
      · congr 1
        rw [← List.length_filterMap_eq_countP]
        cases hv : prs.filterMap get_time_to_first_comment with
        | nil => simp
        | cons x xs => simp
      · congr 1
        rw [← List.length_filterMap_eq_countP]
        cases hv :
            prs.filterMap get_time_from_first_comment_to_followup_commit with
        | nil => simp
        | cons x xs => simp
      · congr 1
        have hcnt :
            prs.countP (fun pr => pr.mergedAt.isSome) =
              prs.countP (fun pr => (mergeHours pr).isSome) := by
          apply List.countP_congr
          intro pr _
          simp [mergeHours_isSome]
        rw [hcnt, ← List.length_filterMap_eq_countP]
        cases hv : prs.filterMap mergeHours with
        | nil => simp
        | cons x xs =>
          have : (x :: xs).length > 0 := by simp
          simp [this]
  · simp [calculate_metrics_for_period, resOf, ttfc_prReviewAt2h,
      ttfc_prReviewAt4h, ttfc_prNoReviews]
    rw [show ((2 : ℚ) + 4) / 2 = ((3 : ℤ) : ℚ) by norm_num, round2_intCast]
    norm_num

/-- Lists of equal length are equally empty. -/
theorem isEmpty_congr {α β : Type} {l : List α} {l' : List β}
    (h : l.length = l'.length) : l.isEmpty = l'.isEmpty := by
  cases l <;> cases l' <;> simp_all

/-- C9: the Window Aggregator is order-independent -- permuting the
record sequence leaves every Period Summary field (counts, per-week
rates, averages, unique contributor count, failure count) unchanged. -/
theorem gh_aggregation_perm_invariant (wk fl : ℕ) (prs prs' : List PRData)
    (h : prs.Perm prs') :
    calculate_metrics_for_period wk prs fl =
      calculate_metrics_for_period wk prs' fl := by
  have hlen : prs.length = prs'.length := h.length_eq
  have hemp : prs.isEmpty = prs'.isEmpty := isEmpty_congr hlen
  cases hp : prs.isEmpty with
  | true =>
    have hp' : prs'.isEmpty = true := hemp ▸ hp
    simp [calculate_metrics_for_period, hp, hp']
  | false =>
    have hp' : prs'.isEmpty = false := hemp ▸ hp
    have hmerg :=
      List.Perm.countP_eq (fun pr => pr.mergedAt.isSome) h
    have hcom :
        (prs.map fun pr => pr.comments_count + pr.review_comments_count).sum =
          (prs'.map fun pr =>
            pr.comments_count + pr.review_comments_count).sum :=
      (h.map _).sum_eq
    have hmv := h.filterMap mergeHours
    have httfc := h.filterMap get_time_to_first_comment
    have hfu := h.filterMap get_time_from_first_comment_to_followup_commit
    have huc : unique_contributors prs = unique_contributors prs' := by
      unfold unique_contributors
      exact h.foldl_eq'
        (fun x _ y _ z => Finset.union_right_comm z (contribs x) (contribs y)) ∅
    simp only [calculate_metrics_for_period, hp, hp', Bool.false_eq_true,
      if_false]
    rw [hlen, hmerg, hcom, hmv.sum_eq, hmv.length_eq, httfc.sum_eq,
      httfc.length_eq, isEmpty_congr httfc.length_eq, hfu.sum_eq,
      hfu.length_eq, isEmpty_congr hfu.length_eq, huc]

/-- C9 (witness): swapping two concrete records leaves the summary
unchanged. -/
theorem gh_aggregation_perm_invariant_witness :
    calculate_metrics_for_period 2 [prReviewAt2h, prReviewAt4h] 0 =
      calculate_metrics_for_period 2 [prReviewAt4h, prReviewAt2h] 0 :=
  gh_aggregation_perm_invariant 2 0 _ _
    (List.Perm.swap prReviewAt4h prReviewAt2h [])

/-- C10: an empty denominator set yields the number 0, not an absent
value -- a window with no fetched records returns only the failure count
and a zero success count (the noPrs shape carries nothing else); with
records but no merged ones the merge averages are 0; with no defined
time-to-first-comment (or follow-up) value the corresponding average is
0; and a record whose defined metric is genuinely zero produces the same
average field as a window with no defined value at all. -/
theorem gh_zero_denominator_averages :
    (∀ wk fl : ℕ, calculate_metrics_for_period wk [] fl =
      PeriodOutput.noPrs fl 0) ∧
    (∀ (wk fl : ℕ) (prs : List PRData), (∀ pr ∈ prs, pr.mergedAt = none) →
      (resOf (calculate_metrics_for_period wk prs fl)).map
          (fun m => m.average_time_to_merge_hours) =
        (resOf (calculate_metrics_for_period wk prs fl)).map (fun _ => 0) ∧
      (resOf (calculate_metrics_for_period wk prs fl)).map
          (fun m => m.average_time_to_merge_days) =
        (resOf (calculate_metrics_for_period wk prs fl)).map (fun _ => 0)) ∧
    (∀ (wk fl : ℕ) (prs : List PRData),
      (∀ pr ∈ prs, get_time_to_first_comment pr = none) →
      (resOf (calculate_metrics_for_period wk prs fl)).map
          (fun m => m.average_time_to_first_comment_hours) =
        (resOf (calculate_metrics_for_period wk prs fl)).map (fun _ => 0)) ∧
    (∀ (wk fl : ℕ) (prs : List PRData),
      (∀ pr ∈ prs,
        get_time_from_first_comment_to_followup_commit pr = none) →
      (resOf (calculate_metrics_for_period wk prs fl)).map
          (fun m =>
            m.average_time_from_first_comment_to_followup_commit_hours) =
        (resOf (calculate_metrics_for_period wk prs fl)).map (fun _ => 0)) ∧
    ((resOf (calculate_metrics_for_period 1 [prReviewAt0h] 0)).map
        (fun m => m.average_time_to_first_comment_hours) = some 0 ∧
      (resOf (calculate_metrics_for_period 1 [prNoReviews] 0)).map
        (fun m => m.average_time_to_first_comment_hours) = some 0) := by
  refine ⟨fun wk fl => rfl, ?_, ?_, ?_, ?_, ?_⟩
  · intro wk fl prs hall
    cases hp : prs.isEmpty with
    | true => simp [calculate_metrics_for_period, hp, resOf]
    | false =>
      have hnil : prs.filterMap mergeHours = [] :=
        List.filterMap_eq_nil_iff.mpr fun pr hpr => by
          simp [mergeHours, hall pr hpr]
      simp [calculate_metrics_for_period, hp, resOf, hnil, round2_zero]
  · intro wk fl prs hall
    cases hp : prs.isEmpty with
    | true => simp [calculate_metrics_for_period, hp, resOf]
    | false =>
      have hnil : prs.filterMap get_time_to_first_comment = [] :=
        List.filterMap_eq_nil_iff.mpr hall
      simp [calculate_metrics_for_period, hp, resOf, hnil, round2_zero]
  · intro wk fl prs hall
    cases hp : prs.isEmpty with
    | true => simp [calculate_metrics_for_period, hp, resOf]
    | false =>
      have hnil :
          prs.filterMap get_time_from_first_comment_to_followup_commit = [] :=
        List.filterMap_eq_nil_iff.mpr hall
      simp [calculate_metrics_for_period, hp, resOf, hnil, round2_zero]
  · simp [calculate_metrics_for_period, resOf, ttfc_prReviewAt0h, round2_zero]
  · simp [calculate_metrics_for_period, resOf, ttfc_prNoReviews, round2_zero]

/-- The record without reviews also has an undefined follow-up metric. -/
theorem fu_prNoReviews :
    get_time_from_first_comment_to_followup_commit prNoReviews = none := rfl

/-- C10 (witness): the empty window and a concrete unmerged,
review-free record exercising every hypothesized part. -/
theorem gh_zero_denominator_averages_witness :
    calculate_metrics_for_period 3 [] 7 = PeriodOutput.noPrs 7 0 ∧
      (resOf (calculate_metrics_for_period 1 [prNoReviews] 0)).map
          (fun m => m.average_time_to_merge_hours) =
        (resOf (calculate_metrics_for_period 1 [prNoReviews] 0)).map
          (fun _ => 0) ∧
      (resOf (calculate_metrics_for_period 1 [prNoReviews] 0)).map
          (fun m => m.average_time_to_first_comment_hours) =
        (resOf (calculate_metrics_for_period 1 [prNoReviews] 0)).map
          (fun _ => 0) ∧
      (resOf (calculate_metrics_for_period 1 [prNoReviews] 0)).map
          (fun m =>
            m.average_time_from_first_comment_to_followup_commit_hours) =
        (resOf (calculate_metrics_for_period 1 [prNoReviews] 0)).map
          (fun _ => 0) :=
  ⟨gh_zero_denominator_averages.1 3 7,
    (gh_zero_denominator_averages.2.1 1 0 [prNoReviews]
      (by simp [prNoReviews, prReviewAt2h])).1,
    gh_zero_denominator_averages.2.2.1 1 0 [prNoReviews]
      (by simp [ttfc_prNoReviews]),
    gh_zero_denominator_averages.2.2.2.1 1 0 [prNoReviews]
      (by simp [fu_prNoReviews])⟩

/-- On a page without a below-window node the scan visits every node:
the output is the filtered mapping of the page, the failure count counts
exactly the failing nodes, and the scan does not halt. -/
theorem processPage_no_halt (s e : ℤ) (br : String) :
    ∀ nodes : List Node, (∀ n ∈ nodes, nodeHaltsB s e n = false) →
      processPage s e br nodes =
        (nodes.filterMap (nodeSucc s e br), nodes.countP (nodeFails s e br),
          false) := by
  intro nodes
  induction nodes with
  | nil => intro _; rfl
  | cons n rest ih =>
    intro h
    have hrest := ih fun x hx => h x (List.mem_cons_of_mem n hx)
    have hn := h n (List.mem_cons_self n rest)
    cases n with
    | null =>
      simp [processPage, hrest, nodeSucc, nodeFails, List.filterMap_cons,
        List.countP_cons]
    | badParse =>
      simp [processPage, hrest, nodeSucc, nodeFails, List.filterMap_cons,
        List.countP_cons]
    | raises c b =>
      simp only [nodeHaltsB, nodeDate] at hn
      by_cases h1 : c > e
      · have hf : ¬(s ≤ c ∧ c ≤ e ∧ (br = "" ∨ b = br)) := fun hc =>
          absurd hc.2.1 (not_le.mpr h1)
        simp [processPage, h1, hrest, nodeSucc, nodeFails, hf,
          List.filterMap_cons, List.countP_cons]
      · have h2 : ¬c < s := by
          intro hlt
          simp [h1, hlt] at hn
        by_cases h3 : br ≠ "" ∧ b ≠ br
        · have hf : ¬(s ≤ c ∧ c ≤ e ∧ (br = "" ∨ b = br)) := by
            rintro ⟨-, -, hbr⟩
            cases hbr with
            | inl hbr => exact h3.1 hbr
            | inr hbr => exact h3.2 hbr
          simp [processPage, h1, h2, h3, hrest, nodeSucc, nodeFails, hf,
            List.filterMap_cons, List.countP_cons]
        · have ht : s ≤ c ∧ c ≤ e ∧ (br = "" ∨ b = br) :=
            ⟨not_lt.mp h2, not_lt.mp h1, by
              rcases not_and_or.mp h3 with hb | hb
              · exact Or.inl (not_not.mp hb)
              · exact Or.inr (not_not.mp hb)⟩
          simp [processPage, h1, h2, h3, hrest, nodeSucc, nodeFails, ht,
            List.filterMap_cons, List.countP_cons]
    | ok pr =>
      simp only [nodeHaltsB, nodeDate] at hn
      by_cases h1 : pr.createdAt > e
      · have hf : ¬(s ≤ pr.createdAt ∧ pr.createdAt ≤ e ∧
            (br = "" ∨ pr.baseRefName = br)) := fun hc =>
          absurd hc.2.1 (not_le.mpr h1)
        simp [processPage, h1, hrest, nodeSucc, nodeFails, hf,
          List.filterMap_cons, List.countP_cons]
      · have h2 : ¬pr.createdAt < s := by
          intro hlt
          simp [h1, hlt] at hn
        by_cases h3 : br ≠ "" ∧ pr.baseRefName ≠ br
        · have hf : ¬(s ≤ pr.createdAt ∧ pr.createdAt ≤ e ∧
              (br = "" ∨ pr.baseRefName = br)) := by
            rintro ⟨-, -, hbr⟩
            cases hbr with
            | inl hbr => exact h3.1 hbr
            | inr hbr => exact h3.2 hbr
          simp [processPage, h1, h2, h3, hrest, nodeSucc, nodeFails, hf,
            List.filterMap_cons, List.countP_cons]
        · have ht : s ≤ pr.createdAt ∧ pr.createdAt ≤ e ∧
              (br = "" ∨ pr.baseRefName = br) :=
            ⟨not_lt.mp h2, not_lt.mp h1, by
              rcases not_and_or.mp h3 with hb | hb
              · exact Or.inl (not_not.mp hb)
              · exact Or.inr (not_not.mp hb)⟩
          simp [processPage, h1, h2, h3, hrest, nodeSucc, nodeFails, ht,
            List.filterMap_cons, List.countP_cons]

/-- C5: a per-record normalization failure is caught, increments the
failure count by one, and drops only that record while the scan of the
page continues; the summary reports the failure count beside a success
count equal to the records that survived; the ten-record page with two
failing records yields eight records, failure count two, and a summary
with total 8 and failed 2 whose averages are computed from the eight
surviving records alone. -/
theorem gh_per_record_failure_isolation :
    (∀ (s e : ℤ) (br : String) (nodes : List Node),
      (∀ n ∈ nodes, nodeHaltsB s e n = false) →
      processPage s e br nodes =
        (nodes.filterMap (nodeSucc s e br), nodes.countP (nodeFails s e br),
          false)) ∧
    (∀ (wk fl : ℕ) (prs : List PRData),
      (resOf (calculate_metrics_for_period wk prs fl)).map
          (fun m => (m.failed_prs, m.successfully_processed_prs, m.total_prs)) =
        (resOf (calculate_metrics_for_period wk prs fl)).map
          (fun _ => (fl, prs.length, prs.length))) ∧
    ((processPage 0 10000 "" tenNodePage).1.length = 8 ∧
      (processPage 0 10000 "" tenNodePage).2.1 = 2 ∧
      (resOf
            (calculate_metrics_for_period 1
              (processPage 0 10000 "" tenNodePage).1
              (processPage 0 10000 "" tenNodePage).2.1)).map
          (fun m => (m.successfully_processed_prs, m.failed_prs)) =
        some (8, 2)) := by
  refine ⟨processPage_no_halt, ?_, ?_, ?_, ?_⟩
  · intro wk fl prs
    cases hp : prs.isEmpty with
    | true => simp [calculate_metrics_for_period, hp, resOf]
    | false => simp [calculate_metrics_for_period, hp, resOf]
  · decide
  · decide
  · decide

/-- C5 (witness): one bad record on a page of one is counted and
excluded without aborting. -/
theorem gh_per_record_failure_isolation_witness :
    processPage 0 10 "" [Node.badParse] =
      ([Node.badParse].filterMap (nodeSucc 0 10 ""),
        [Node.badParse].countP (nodeFails 0 10 ""), false) :=
  gh_per_record_failure_isolation.1 0 10 "" [Node.badParse] (by decide)

/-- Every record the page scan emits was created inside the window. -/
theorem mem_processPage (s e : ℤ) (br : String) :
    ∀ (nodes : List Node) (pr : PRData), pr ∈ (processPage s e br nodes).1 →
      s ≤ pr.createdAt ∧ pr.createdAt ≤ e := by
  intro nodes
  induction nodes with
  | nil => intro pr h; simp [processPage] at h
  | cons n rest ih =>
    intro pr h
    cases n with
    | null => exact ih pr h
    | badParse =>
      rcases hpp : processPage s e br rest with ⟨ps, f, hh⟩
      simp only [processPage, hpp] at h
      exact ih pr (by rw [hpp]; exact h)
    | raises c b =>
      by_cases h1 : c > e
      · rw [processPage, if_pos h1] at h
        exact ih pr h
      · by_cases h2 : c < s
        · rw [processPage, if_neg h1, if_pos h2] at h
          simp at h
        · rcases hpp : processPage s e br rest with ⟨ps, f, hh⟩
          by_cases h3 : br ≠ "" ∧ b ≠ br
          · rw [processPage, if_neg h1, if_neg h2, if_pos h3] at h
            exact ih pr h
          · rw [processPage, if_neg h1, if_neg h2, if_neg h3, hpp] at h
            exact ih pr (by rw [hpp]; exact h)
    | ok pr0 =>
      by_cases h1 : pr0.createdAt > e
      · rw [processPage, if_pos h1] at h
        exact ih pr h
      · by_cases h2 : pr0.createdAt < s
        · rw [processPage, if_neg h1, if_pos h2] at h
          simp at h
        · by_cases h3 : br ≠ "" ∧ pr0.baseRefName ≠ br
          · rw [processPage, if_neg h1, if_neg h2, if_pos h3] at h
            exact ih pr h
          · rcases hpp : processPage s e br rest with ⟨ps, f, hh⟩
            rw [processPage, if_neg h1, if_neg h2, if_neg h3, hpp] at h
            rcases List.mem_cons.mp h with rfl | hmem
            · exact ⟨not_lt.mp h2, not_lt.mp h1⟩
            · exact ih pr (by rw [hpp]; exact hmem)

/-- A page containing a below-window node makes the scan report a halt. -/
theorem processPage_halts (s e : ℤ) (br : String) :
    ∀ nodes : List Node, (∃ n ∈ nodes, nodeHaltsB s e n = true) →
      (processPage s e br nodes).2.2 = true := by
  intro nodes
  induction nodes with
  | nil => rintro ⟨n, hn, -⟩; simp at hn
  | cons n rest ih =>
    rintro ⟨n0, hn0, hhalt⟩
    rcases List.mem_cons.mp hn0 with rfl | hmem
    · cases n0 with
      | null => simp [nodeHaltsB, nodeDate] at hhalt
      | badParse => simp [nodeHaltsB, nodeDate] at hhalt
      | raises c b =>
        simp only [nodeHaltsB, nodeDate] at hhalt
        by_cases hcond : ¬c > e ∧ c < s
        · rw [processPage, if_neg hcond.1, if_pos hcond.2]
        · rw [if_neg hcond] at hhalt
          simp at hhalt
      | ok pr =>
        simp only [nodeHaltsB, nodeDate] at hhalt
        by_cases hcond : ¬pr.createdAt > e ∧ pr.createdAt < s
        · rw [processPage, if_neg hcond.1, if_pos hcond.2]
        · rw [if_neg hcond] at hhalt
          simp at hhalt
    · have hrest := ih ⟨n0, hmem, hhalt⟩
      cases n with
      | null => simpa [processPage] using hrest
      | badParse =>
        rcases hpp : processPage s e br rest with ⟨ps, f, hh⟩
        rw [hpp] at hrest
        simp only [processPage, hpp]
        exact hrest
      | raises c b =>
        by_cases h1 : c > e
        · rw [processPage, if_pos h1]
          exact hrest
        · by_cases h2 : c < s
          · rw [processPage, if_neg h1, if_pos h2]
          · by_cases h3 : br ≠ "" ∧ b ≠ br
            · rw [processPage, if_neg h1, if_neg h2, if_pos h3]
              exact hrest
            · rcases hpp : processPage s e br rest with ⟨ps, f, hh⟩
              rw [hpp] at hrest
              rw [processPage, if_neg h1, if_neg h2, if_neg h3, hpp]
              exact hrest
      | ok pr =>
        by_cases h1 : pr.createdAt > e
        · rw [processPage, if_pos h1]
          exact hrest
        · by_cases h2 : pr.createdAt < s
          · rw [processPage, if_neg h1, if_pos h2]
          · by_cases h3 : br ≠ "" ∧ pr.baseRefName ≠ br
            · rw [processPage, if_neg h1, if_neg h2, if_pos h3]
              exact hrest
            · rcases hpp : processPage s e br rest with ⟨ps, f, hh⟩
              rw [hpp] at hrest
              rw [processPage, if_neg h1, if_neg h2, if_neg h3, hpp]
              exact hrest

/-- Once a page holds a below-window node, no page after it is ever
requested: the number of page fetches stays within that page's position
plus one. -/
theorem fetchCount_le (s e : ℤ) (br : String) :
    ∀ (pages : List (List Node)) (k : ℕ) (pg : List Node),
      pages.get? k = some pg → (∃ n ∈ pg, nodeHaltsB s e n = true) →
        (get_pull_requests_optimized s e br pages).2.2 ≤ k + 1 := by
  intro pages
  induction pages with
  | nil => intro k pg h; simp at h
  | cons pg0 rest ih =>
    intro k pg hget hex
    rcases hpp : processPage s e br pg0 with ⟨ps, f, hh⟩
    cases k with
    | zero =>
      have hpg : pg = pg0 := by simpa using hget.symm
      subst hpg
      have hh1 : hh = true := by
        have := processPage_halts s e br pg hex
        rw [hpp] at this
        exact this
      simp [get_pull_requests_optimized, hpp, hh1]
    | succ k =>
      have hget' : rest.get? k = some pg := by simpa using hget
      simp only [get_pull_requests_optimized, hpp]
      by_cases hcond : hh = true ∨ rest.isEmpty = true
      · rw [if_pos hcond]
        simp
      · rw [if_neg hcond]
        rcases hgl : get_pull_requests_optimized s e br rest with ⟨ps2, f2, c⟩
        have hc := ih k pg hget' hex
        rw [hgl] at hc
        simp only [hgl]
        simp at hc ⊢
        omega

/-- Unfolding of the GitLab loop on a non-final page. -/
theorem glab_cons (s e : ℤ) (br : String) (pg : List GLab.GLNode)
    (rest : List (List GLab.GLNode)) (h : rest ≠ []) :
    GLab.get_merge_requests s e br (pg :: rest) =
      (GLab.fetch_mrs_batch s e br pg ++
          (GLab.get_merge_requests s e br rest).1,
        (GLab.get_merge_requests s e br rest).2 + 1) := by
  cases rest with
  | nil => exact absurd rfl h
  | cons a l => simp [GLab.get_merge_requests]

/-- The GitLab loop requests every page the server reports and filters
each page to the window individually -- it never halts early. -/
theorem glab_fetches_all (s e : ℤ) (br : String) :
    ∀ pages : List (List GLab.GLNode),
      GLab.get_merge_requests s e br pages =
        ((pages.map (GLab.fetch_mrs_batch s e br)).flatten,
          if pages = [] then 1 else pages.length) := by
  intro pages
  induction pages with
  | nil => simp [GLab.get_merge_requests]
  | cons pg rest ih =>
    cases rest with
    | nil => simp [GLab.get_merge_requests]
    | cons a l =>
      rw [glab_cons s e br pg (a :: l) (by simp), ih]
      simp

/-- Every record the whole GitHub fetch loop emits was created inside
the window. -/
theorem mem_get_pull_requests (s e : ℤ) (br : String) :
    ∀ (pages : List (List Node)) (pr : PRData),
      pr ∈ (get_pull_requests_optimized s e br pages).1 →
        s ≤ pr.createdAt ∧ pr.createdAt ≤ e := by
  intro pages
  induction pages with
  | nil => intro pr h; simp [get_pull_requests_optimized] at h
  | cons pg rest ih =>
    intro pr h
    rcases hpp : processPage s e br pg with ⟨ps, f, hh⟩
    simp only [get_pull_requests_optimized, hpp] at h
    split at h
    · exact mem_processPage s e br pg pr (by rw [hpp]; exact h)
    · rcases hgl : get_pull_requests_optimized s e br rest with ⟨ps2, f2, c⟩
      rw [hgl] at h
      rcases List.mem_append.mp h with hmem | hmem
      · exact mem_processPage s e br pg pr (by rw [hpp]; exact hmem)
      · exact ih pr (by rw [hgl]; exact hmem)

/-- C2 (amended): in the GitHub variant an item above the window end is
skipped individually and the scan continues; every emitted record lies
inside the window; and once a page holds a below-window-start item, no
later page is requested (the fetch count stays within that page's
position plus one -- the boundary page itself, which can lie entirely
before the window, is still fetched).  The GitLab variant never halts
early: it filters every item individually and requests every page the
server reports. -/
theorem paginator_early_stop :
    (∀ (s e : ℤ) (br : String) (n : Node) (rest : List Node) (c : ℤ),
      nodeDate n = some c → c > e →
        processPage s e br (n :: rest) = processPage s e br rest) ∧
    (∀ (s e : ℤ) (br : String) (pages : List (List Node)) (pr : PRData),
      pr ∈ (get_pull_requests_optimized s e br pages).1 →
        s ≤ pr.createdAt ∧ pr.createdAt ≤ e) ∧
    (∀ (s e : ℤ) (br : String) (pages : List (List Node)) (k : ℕ)
        (pg : List Node),
      pages.get? k = some pg → (∃ n ∈ pg, nodeHaltsB s e n = true) →
        (get_pull_requests_optimized s e br pages).2.2 ≤ k + 1) ∧
    (∀ (s e : ℤ) (br : String) (pages : List (List GLab.GLNode)),
      GLab.get_merge_requests s e br pages =
        ((pages.map (GLab.fetch_mrs_batch s e br)).flatten,
          if pages = [] then 1 else pages.length)) := by
  refine ⟨?_, mem_get_pull_requests, fetchCount_le, glab_fetches_all⟩
  intro s e br n rest c hdate hgt
  cases n with
  | null => simp [nodeDate] at hdate
  | badParse => simp [nodeDate] at hdate
  | raises c0 b =>
    simp only [nodeDate, Option.some.injEq] at hdate
    subst hdate
    rw [processPage, if_pos hgt]
  | ok pr =>
    simp only [nodeDate, Option.some.injEq] at hdate
    rw [processPage, if_pos (hdate ▸ hgt)]

/-- C2 (witness): concrete pages exercising the three hypothesized
parts -- a skipped above-window item, a concrete member bound, and the
halt on a below-window page. -/
theorem paginator_early_stop_witness :
    processPage 0 10000 "" (Node.raises 20000 "main" :: [Node.ok (rawIn 1)]) =
        processPage 0 10000 "" [Node.ok (rawIn 1)] ∧
      (0 ≤ (process_pr_graphql_data (rawIn 1)).createdAt ∧
        (process_pr_graphql_data (rawIn 1)).createdAt ≤ 10000) ∧
      (get_pull_requests_optimized 3 10 "" [[Node.ok rawLow]]).2.2 ≤ 0 + 1 :=
  ⟨paginator_early_stop.1 0 10000 "" (Node.raises 20000 "main")
      [Node.ok (rawIn 1)] 20000 rfl (by norm_num),
    paginator_early_stop.2.1 0 10000 "" [[Node.ok (rawIn 1)]]
      (process_pr_graphql_data (rawIn 1)) (by decide),
    paginator_early_stop.2.2.1 3 10 "" [[Node.ok rawLow]] 0 [Node.ok rawLow]
      rfl (by decide)⟩

/-- C2 (counterexample): the GitLab variant does not halt.  With the
window [3, 10], the first page's only item (created at 1) lies below the
window start, yet the loop still requests the second page: two fetches
happen where the claim requires pagination to stop after the first. -/
theorem paginator_early_stop_counterexample :
    GLab.get_merge_requests 3 10 ""
        [[GLab.glNode 1], [GLab.glNode 0]] = ([], 2) := by
  decide

end GH

/-- C3: the before window is [A - 1 week - L, A - 1 week] and the after
window is [A, A + L] in both the GitHub and the Bitbucket scripts (for
every lookback L, in particular every positive one), and the spec's
concrete instance at A = 2024-06-15T00:00:00Z (epoch 1718409600) with
L = 2 weeks gives exactly the stated bounds. -/
theorem window_derivation (A : ℤ) (L : ℕ) :
    GH.calculate_before_auto_date_range A L =
        (A - GH.week - GH.week * L, A - GH.week) ∧
      GH.calculate_after_auto_date_range A L = (A, A + GH.week * L) ∧
      BB.calculate_before_auto_date_range A L =
        (A - GH.week - GH.week * L, A - GH.week) ∧
      BB.calculate_after_auto_date_range A L = (A, A + GH.week * L) ∧
      GH.calculate_before_auto_date_range 1718409600 2 =
        (1716595200, 1717804800) ∧
      GH.calculate_after_auto_date_range 1718409600 2 =
        (1718409600, 1719619200) := by
  exact ⟨rfl, rfl, rfl, rfl, by decide, by decide⟩

/-- C6 (amended): the GitHub variant fails closed -- a missing author
object is classified automated by is_bot_user, yields is_bot_author =
true at normalization, and a bot-flagged record contributes only its
(bot-filtered) reviewer and commenter sets to the unique contributor
union, never its author.  The GitLab CSV variant fails OPEN: a record
whose author username is missing or empty gets is_bot_author = false. -/
theorem bot_classification_fail_closed :
    GH.is_bot_user none = true ∧
    (∀ raw : GH.RawPR, raw.author = none →
      (GH.process_pr_graphql_data raw).is_bot_author = true) ∧
    (∀ pr : GH.PRData, pr.is_bot_author = true →
      GH.contribs pr = pr.reviewers ∪ pr.commenters) ∧
    (∀ n : GLab.GLNode, GLab.glUsername n.author = "" →
      (GLab.glProcessNode n).is_bot_author = false) := by
  refine ⟨rfl, ?_, ?_, ?_⟩
  · intro raw h
    simp [GH.process_pr_graphql_data, GH.ghIsBotAuthor, h]
  · intro pr h
    simp [GH.contribs, h]
  · intro n h
    simp [GLab.glProcessNode, GLab.glIsBotAuthor, h]

/-- C6 (witness): the concrete records exercising each hypothesis. -/
theorem bot_classification_fail_closed_witness :
    (GH.process_pr_graphql_data GH.noAuthorRaw).is_bot_author = true ∧
      GH.contribs GH.botPR = GH.botPR.reviewers ∪ GH.botPR.commenters ∧
      (GLab.glProcessNode GLab.glNoAuthorNode).is_bot_author = false :=
  ⟨bot_classification_fail_closed.2.1 GH.noAuthorRaw rfl,
    bot_classification_fail_closed.2.2.1 GH.botPR rfl,
    bot_classification_fail_closed.2.2.2 GLab.glNoAuthorNode rfl⟩

/-- C6 (counterexample): a GitLab record with a missing author object is
classified as NOT automated, where the claim requires every variant to
classify it automated. -/
theorem bot_classification_counterexample :
    (GLab.glProcessNode GLab.glNoAuthorNode).is_bot_author = false := by
  decide

/-- The Bitbucket attempt loop never exceeds its attempt budget. -/
theorem bbAttempt_le (n : ℕ) : ∀ rs : List BB.BBResp,
    (BB.bbAttempt rs n).2 ≤ n := by
  induction n with
  | zero => intro rs; cases rs <;> simp [BB.bbAttempt]
  | succ n ih =>
    intro rs
    cases rs with
    | nil =>
      rcases h : BB.bbAttempt [] n with ⟨sc, a⟩
      have := ih []
      rw [h] at this
      simp [BB.bbAttempt, h]
      omega
    | cons r rest =>
      cases r with
      | exn =>
        rcases h : BB.bbAttempt rest n with ⟨sc, a⟩
        have := ih rest
        rw [h] at this
        simp [BB.bbAttempt, h]
        omega
      | status c =>
        by_cases h200 : c = 200
        · simp [BB.bbAttempt, h200]
        · by_cases h5 : c = 500 ∨ c = 502 ∨ c = 503 ∨ c = 504
          · rcases h : BB.bbAttempt rest n with ⟨sc, a⟩
            have := ih rest
            rw [h] at this
            simp [BB.bbAttempt, h200, h5, h]
            omega
          · simp [BB.bbAttempt, h200, h5]

/-- graphql_query keeps retrying while the server keeps answering 403. -/
theorem ghRun_replicate (n : ℕ) :
    GH.graphql_query_run (List.replicate n GH.GHResp.rateLimited) =
      (none, n) := by
  induction n with
  | zero => rfl
  | succ n ih => simp [List.replicate, GH.graphql_query_run, ih]

/-- After n 403 responses and one 200, graphql_query returns the payload
on attempt n + 1. -/
theorem ghRun_replicate_ok (n : ℕ) :
    GH.graphql_query_run
        (List.replicate n GH.GHResp.rateLimited ++ [GH.GHResp.ok]) =
      (some (), n + 1) := by
  induction n with
  | zero => rfl
  | succ n ih => simp [List.replicate, GH.graphql_query_run, ih]

/-- C7 (amended): Bitbucket's _get retries transient server errors and
request exceptions with backoff but never makes more than its three
budgeted attempts, while an explicit 429 rate-limit response is surfaced
at once without retry; GitHub's graphql_query surfaces any non-200
failure at once without retry, and retries a 403 rate-limit response
without any bound, succeeding on whichever later attempt the server
answers 200. -/
theorem transient_retry_bounds :
    (∀ rs : List BB.BBResp, (BB.bb_get rs).2 ≤ 3) ∧
    (∀ (rs : List BB.BBResp) (n : ℕ),
      BB.bbAttempt (BB.BBResp.status 429 :: rs) (n + 1) = (false, 1)) ∧
    (∀ rs : List GH.GHResp,
      GH.graphql_query_run (GH.GHResp.failStatus :: rs) = (none, 1)) ∧
    (∀ n : ℕ,
      GH.graphql_query_run
          (List.replicate n GH.GHResp.rateLimited ++ [GH.GHResp.ok]) =
        (some (), n + 1)) := by
  refine ⟨fun rs => bbAttempt_le 3 rs, ?_, fun rs => rfl, ghRun_replicate_ok⟩
  intro rs n
  simp [BB.bbAttempt]

/-- C7 (counterexample): a transient server error in the GitHub variant
is surfaced after a single attempt with no retry (a retry would have
succeeded), and no fixed bound covers the 403 retry path -- the attempt
count exceeds every proposed bound. -/
theorem transient_retry_counterexample :
    GH.graphql_query_run [GH.GHResp.failStatus, GH.GHResp.ok] = (none, 1) ∧
      ¬∃ B : ℕ, ∀ rs : List GH.GHResp, (GH.graphql_query_run rs).2 ≤ B := by
  constructor
  · rfl
  · rintro ⟨B, hB⟩
    have h1 := hB (List.replicate (B + 1) GH.GHResp.rateLimited)
    rw [ghRun_replicate] at h1
    simp at h1

end Augbench
